import Mathlib

/-!
# Verification of the attendance-guardian face-recognition core

Shallow embedding of the core pipeline of the `attendance-guardian-ai`
repository, translated from:

* `src/src/components/FaceRecognitionMonitor.tsx`
  (schedule resolution `updateCurrentClassHour`, decision engine
  `checkAttendanceForMatches`);
* the face-recognition service (`src/unnamed/part_002`):
  `detectFaces`, `calculateSimilarity`, `matchFaceWithStudents`.

JavaScript numbers are modelled as real numbers (`ℝ`) where `Math.sqrt`
appears, and as rationals (`ℚ`) for detector scores, which are only
compared against a rational threshold.  Database query results keyed by
`(student_id, date, class_hour)` — on tables carrying a
`UNIQUE(student_id, date, class_hour)` constraint — are modelled as
`Option`/`Bool` valued lookup functions.  Exceptions are modelled with
`Except`.
-/

/-- Status values allowed by the attendance table:
`CHECK (status IN ('present', 'absent'))`. -/
inductive AttStatus where
  | present
  | absent
deriving DecidableEq, Repr

/-- A roster identity, the `Student` interface of the face-recognition
service: `{ id, name, student_id, face_encoding?: number[] }`. -/
structure Student where
  id : String
  name : String
  roll : String
  face_encoding : Option (List ℝ)

/-- One entry of the matcher output: `{ student, confidence }`. -/
structure MatchRec where
  student : Student
  confidence : ℝ

/-- The external record store as seen by one decision pass, fixing the
date and class hour: each field gives the query result at
`(student_id, today, currentClassHour)`.  `attendance` returns the status
of the attendance record, if one exists (the `UNIQUE` constraint allows
at most one); `dutyLeave` and `notification` report whether the
corresponding query returned a non-empty result. -/
structure DB where
  attendance : String → Option AttStatus
  dutyLeave : String → Bool
  notification : String → Bool

/-- The record inserted into `notifications` by the decision engine
(the human-readable message string, which interpolates the rounded
confidence, is presentational and not modelled). -/
structure AlertEvent where
  studentId : String
  classHour : String
  date : String
  confidence : ℝ

/-- `checkAttendanceForMatches` (FaceRecognitionMonitor.tsx:501-555).
Returns the list of alert records the pass inserts:

* `if (isBreakTime || !currentClassHour) return;` — the empty string is
  the falsy "no active class" value of `currentClassHour`;
* per match: alert only when the attendance query and the duty-leave
  query are both empty, and then only when the notifications query is
  empty. -/
def checkAttendanceForMatches (isBreakTime : Bool) (currentClassHour : String)
    (db : DB) (today : String) (ms : List MatchRec) : List AlertEvent :=
  if isBreakTime = true ∨ currentClassHour = "" then []
  else
    ms.filterMap fun m =>
      if db.attendance m.student.id = none ∧ db.dutyLeave m.student.id = false then
        if db.notification m.student.id = false then
          some ⟨m.student.id, currentClassHour, today, m.confidence⟩
        else none
      else none

/-- Number of emitted alerts that concern student `s`. -/
def countAlertsFor (s : String) (out : List AlertEvent) : Nat :=
  out.countP fun a => decide (a.studentId = s)

/-- Number of matcher entries that concern student `s`. -/
def countMatchesFor (s : String) (ms : List MatchRec) : Nat :=
  ms.countP fun m => decide (m.student.id = s)

/-- Follows the spec's words, for comparison with the code: a *valid
excuse* for `(identity, date, class_hour)` is "a present-or-duty-leave
attendance record".  (The code's own test is broader: any attendance
record, including one with status `'absent'`, also suppresses the
alert.) -/
def specValidExcuse (db : DB) (s : String) : Prop :=
  db.attendance s = some AttStatus.present ∨ db.dutyLeave s = true

/-- Per-student alert count of one decision pass, in closed form: when
the pass is live (not break, active hour) and student `s` has no
attendance record, no duty leave and no prior notification, each match
for `s` produces one alert; in every other case `s` gets no alert. -/
lemma countAlerts_check (b : Bool) (hour today : String) (db : DB)
    (ms : List MatchRec) (s : String) :
    countAlertsFor s (checkAttendanceForMatches b hour db today ms) =
      if b = false ∧ hour ≠ "" ∧ db.attendance s = none ∧
          db.dutyLeave s = false ∧ db.notification s = false
      then countMatchesFor s ms else 0 := by
  unfold checkAttendanceForMatches
  by_cases hb : b = true
  · subst hb
    simp [countAlertsFor]
  · have hb0 : b = false := by cases b <;> simp_all
    subst hb0
    by_cases hh : hour = ""
    · subst hh
      simp [countAlertsFor]
    · rw [if_neg (by simp [hh])]
      induction ms with
      | nil => simp [countAlertsFor, countMatchesFor]
      | cons m t ih =>
        by_cases hm : m.student.id = s
        · by_cases hA : db.attendance s = none
          · by_cases hD : db.dutyLeave s = false
            · by_cases hN : db.notification s = false
              · rw [if_pos ⟨rfl, hh, hA, hD, hN⟩] at ih ⊢
                simp only [List.filterMap_cons, hm, hA, hD, hN]
                simp [countAlertsFor, countMatchesFor, List.countP_cons, hm] at ih ⊢
                omega
              · rw [if_neg (by tauto)] at ih ⊢
                simp only [List.filterMap_cons, hm, hA, hD]
                have hN' : db.notification s = true := by
                  cases h : db.notification s <;> simp_all
                simp [hN', ih]
            · rw [if_neg (by tauto)] at ih ⊢
              have hD' : db.dutyLeave s = true := by
                cases h : db.dutyLeave s <;> simp_all
              simp only [List.filterMap_cons, hm, hD']
              simp [ih]
          · rw [if_neg (by tauto)] at ih ⊢
            simp only [List.filterMap_cons, hm]
            rcases h : db.attendance s with _ | st
            · exact absurd h hA
            · simp [h, ih]
        · simp only [List.filterMap_cons]
          rcases hfm : (if db.attendance m.student.id = none ∧
              db.dutyLeave m.student.id = false then
              if db.notification m.student.id = false then
                some (⟨m.student.id, hour, today, m.confidence⟩ : AlertEvent)
              else none
            else none) with _ | a
          · simpa [countMatchesFor, List.countP_cons, hm] using ih
          · have ha : a.studentId = m.student.id := by
              by_cases h1 : db.attendance m.student.id = none ∧
                  db.dutyLeave m.student.id = false
              · rw [if_pos h1] at hfm
                by_cases h2 : db.notification m.student.id = false
                · rw [if_pos h2] at hfm
                  cases hfm
                  rfl
                · rw [if_neg h2] at hfm
                  cases hfm
              · rw [if_neg h1] at hfm
                cases hfm
            have has : ¬ (a.studentId = s) := by rw [ha]; exact hm
            simp only [countAlertsFor, List.countP_cons, decide_eq_true_eq] at ih ⊢
            simp [has, hm, countMatchesFor, List.countP_cons] at ih ⊢
            omega

/-- **C3.** When `isBreakTime` is true or the resolved class hour is
absent (the falsy empty string), `checkAttendanceForMatches` returns the
empty list for every match list and every state of the external stores:
no lookup outcome can produce an alert. -/
theorem C3_break_or_no_hour_empty (b : Bool) (hour today : String) (db : DB)
    (ms : List MatchRec) (h : b = true ∨ hour = "") :
    checkAttendanceForMatches b hour db today ms = [] := by
  unfold checkAttendanceForMatches
  rw [if_pos h]

/-- C3 at a concrete input: break time, one matched student, stores that
would otherwise fire an alert. -/
theorem C3_break_or_no_hour_empty_witness :
    checkAttendanceForMatches true "09:00:00"
      ⟨fun _ => none, fun _ => false, fun _ => false⟩ "2026-10-11"
      [⟨⟨"A", "Alice", "S001", none⟩, 0.9⟩] = [] :=
  C3_break_or_no_hour_empty true "09:00:00" _ _ _ (Or.inl rfl)

/-- **C2.** A matched identity with a valid excuse in the spec's sense —
a present attendance record or a duty-leave record at
`(identity, date, class_hour)` — receives no alert, whatever the pass
context, the notification store and the match confidences. -/
theorem C2_valid_excuse_no_alert (b : Bool) (hour today : String) (db : DB)
    (ms : List MatchRec) (s : String) (h : specValidExcuse db s) :
    countAlertsFor s (checkAttendanceForMatches b hour db today ms) = 0 := by
  rw [countAlerts_check, if_neg]
  rintro ⟨-, -, hA, hD, -⟩
  rcases h with h | h
  · rw [h] at hA
    cases hA
  · rw [h] at hD
    cases hD

/-- C2 at a concrete input: a student with a `'present'` attendance
record, matched at confidence 0.99, gets no alert. -/
theorem C2_valid_excuse_no_alert_witness :
    countAlertsFor "A" (checkAttendanceForMatches false "09:00:00"
      ⟨fun _ => some AttStatus.present, fun _ => false, fun _ => false⟩
      "2026-10-11" [⟨⟨"A", "Alice", "S001", none⟩, 0.99⟩]) = 0 :=
  C2_valid_excuse_no_alert false "09:00:00" "2026-10-11" _ _ "A" (Or.inl rfl)

/-- **C1 counterexample.** The claim's "no valid excuse", read as the
spec defines it (no present-or-duty-leave record), is satisfied by a
student whose only attendance record has status `'absent'`; with no
prior notification and one match, the claim demands exactly one alert,
yet the code — which suppresses on *any* attendance record — emits
none. -/
theorem C1_counterexample :
    ¬ specValidExcuse
        ⟨fun _ => some AttStatus.absent, fun _ => false, fun _ => false⟩ "A" ∧
    countMatchesFor "A" [⟨⟨"A", "Alice", "S001", none⟩, 0.9⟩] = 1 ∧
    countAlertsFor "A" (checkAttendanceForMatches false "09:00:00"
      ⟨fun _ => some AttStatus.absent, fun _ => false, fun _ => false⟩
      "2026-10-11" [⟨⟨"A", "Alice", "S001", none⟩, 0.9⟩]) = 0 := by
  refine ⟨?_, by decide, by decide⟩
  rintro (h | h) <;> simp at h

/-- **C1 (amended).** For a live pass (non-break, active class hour): if
student `s` has no attendance record *of any status*, no duty-leave
record and no prior notification, and appears exactly once in the match
list, the pass emits exactly one alert for `s`; and any pass over the
same match list against a store in which a notification for `s` exists
emits no alert for `s` — so at most one alert is ever persisted per
`(identity, date, class_hour)`. -/
theorem C1_single_alert_then_suppressed (hour today : String) (db : DB)
    (ms : List MatchRec) (s : String)
    (hh : hour ≠ "") (hA : db.attendance s = none)
    (hD : db.dutyLeave s = false) (hN : db.notification s = false)
    (hm : countMatchesFor s ms = 1) :
    countAlertsFor s (checkAttendanceForMatches false hour db today ms) = 1 ∧
      ∀ db2 : DB, db2.notification s = true →
        countAlertsFor s (checkAttendanceForMatches false hour db2 today ms) = 0 := by
  constructor
  · rw [countAlerts_check, if_pos ⟨rfl, hh, hA, hD, hN⟩, hm]
  · intro db2 h2
    rw [countAlerts_check, if_neg]
    rintro ⟨-, -, -, -, hN2⟩
    rw [h2] at hN2
    cases hN2

/-- C1 (amended) at a concrete input: one match, empty stores — exactly
one alert; same pass with the notification already persisted — no
alert. -/
theorem C1_single_alert_then_suppressed_witness :
    countAlertsFor "A" (checkAttendanceForMatches false "09:00:00"
      ⟨fun _ => none, fun _ => false, fun _ => false⟩ "2026-10-11"
      [⟨⟨"A", "Alice", "S001", none⟩, 0.9⟩]) = 1 ∧
    countAlertsFor "A" (checkAttendanceForMatches false "09:00:00"
      ⟨fun _ => none, fun _ => false, fun _ => true⟩ "2026-10-11"
      [⟨⟨"A", "Alice", "S001", none⟩, 0.9⟩]) = 0 :=
  ⟨(C1_single_alert_then_suppressed "09:00:00" "2026-10-11"
      ⟨fun _ => none, fun _ => false, fun _ => false⟩ _ "A"
      (by decide) rfl rfl rfl (by decide)).1,
   (C1_single_alert_then_suppressed "09:00:00" "2026-10-11"
      ⟨fun _ => none, fun _ => false, fun _ => false⟩ _ "A"
      (by decide) rfl rfl rfl (by decide)).2
     ⟨fun _ => none, fun _ => false, fun _ => true⟩ rfl⟩

/-- The `dotProduct += embedding1[i] * embedding2[i]` accumulation of
`calculateSimilarity`'s loop. -/
def dotProduct (e1 e2 : List ℝ) : ℝ := (List.zipWith (fun x y => x * y) e1 e2).sum

/-- The `norm += e[i] * e[i]` accumulation of `calculateSimilarity`'s
loop (the loop is only reached when both embeddings have the same
length, so iterating over the indices of `embedding1` covers each list
exactly). -/
def sumSq (e : List ℝ) : ℝ := (e.map fun x => x * x).sum

open Classical in
/-- `calculateSimilarity` (face-recognition service, lines 129-153):
cosine similarity with the two early exits of the source — a length
mismatch returns 0 before any arithmetic, and a zero value of either
square-root norm returns 0 before the division. -/
noncomputable def calculateSimilarity (e1 e2 : List ℝ) : ℝ :=
  if e1.length ≠ e2.length then 0
  else
    if Real.sqrt (sumSq e1) = 0 ∨ Real.sqrt (sumSq e2) = 0 then 0
    else dotProduct e1 e2 / (Real.sqrt (sumSq e1) * Real.sqrt (sumSq e2))

/-- **C5.** `calculateSimilarity` is total and guarded: on a length
mismatch, or when either vector has zero norm (zero sum of squares),
the result is exactly 0 — the division is never reached. -/
theorem C5_similarity_guarded (e1 e2 : List ℝ)
    (h : e1.length ≠ e2.length ∨ sumSq e1 = 0 ∨ sumSq e2 = 0) :
    calculateSimilarity e1 e2 = 0 := by
  unfold calculateSimilarity
  rcases h with h | h | h
  · rw [if_pos h]
  · by_cases hl : e1.length ≠ e2.length
    · rw [if_pos hl]
    · rw [if_neg hl, if_pos (Or.inl (by rw [h, Real.sqrt_zero]))]
  · by_cases hl : e1.length ≠ e2.length
    · rw [if_pos hl]
    · rw [if_neg hl, if_pos (Or.inr (by rw [h, Real.sqrt_zero]))]

/-- C5 at a concrete input: the zero vector against a non-zero vector of
the same length yields similarity 0 through the norm guard. -/
theorem C5_similarity_guarded_witness : calculateSimilarity [0, 0] [1, 1] = 0 :=
  C5_similarity_guarded [0, 0] [1, 1] (Or.inr (Or.inl (by norm_num [sumSq])))

/-- **C6.** Cosine similarity as implemented is symmetric:
`calculateSimilarity(a, b) = calculateSimilarity(b, a)` for all vectors,
through every branch (length guard, norm guard, and the division). -/
theorem C6_similarity_symm (e1 e2 : List ℝ) :
    calculateSimilarity e1 e2 = calculateSimilarity e2 e1 := by
  unfold calculateSimilarity
  have hd : dotProduct e1 e2 = dotProduct e2 e1 := by
    unfold dotProduct
    rw [List.zipWith_comm_of_comm _ mul_comm]
  by_cases hl : e1.length = e2.length
  · rw [if_neg (not_ne_iff.mpr hl), if_neg (not_ne_iff.mpr hl.symm)]
    by_cases hg : Real.sqrt (sumSq e1) = 0 ∨ Real.sqrt (sumSq e2) = 0
    · rw [if_pos hg, if_pos hg.symm]
    · rw [if_neg hg, if_neg (fun hc => hg hc.symm), hd, mul_comm]
  · rw [if_pos hl, if_pos (fun hc => hl hc.symm)]

open Classical in
/-- The match-collection loop of `matchFaceWithStudents` (face
recognition service, lines 163-191).  Each detected face contributes the
embedding extracted from its crop (`none` models a per-face throw,
caught by the per-face `try`; an empty embedding is skipped by the
`length === 0` check); each roster student with a stored
`face_encoding` whose similarity is strictly above `threshold = 0.7`
contributes one `{student, confidence}` record, in face-then-roster
order. -/
noncomputable def collectMatches (faceEmbs : List (Option (List ℝ)))
    (students : List Student) : List MatchRec :=
  faceEmbs.foldl (fun acc embRes =>
    match embRes with
    | none => acc
    | some emb =>
      if emb.length = 0 then acc
      else
        acc ++ students.filterMap fun st =>
          match st.face_encoding with
          | none => none
          | some enc =>
            let similarity := calculateSimilarity emb enc
            if similarity > 0.7 then some ⟨st, similarity⟩ else none) []

/-- Key test of the `uniqueMatches` object: does a record carry student
id `s`? -/
def hasId (s : String) : MatchRec → Bool := fun x => decide (x.student.id = s)

/-- Overwriting the entry of key `m.student.id` in an insertion-ordered
object: a JavaScript property assignment to an existing key keeps the
key's position. -/
def jsReplace (m : MatchRec) (acc : List MatchRec) : List MatchRec :=
  acc.map fun y => if y.student.id = m.student.id then m else y

open Classical in
/-- One step of the `uniqueMatches` update (lines 196-201):
`if (!uniqueMatches[id] || match.confidence > uniqueMatches[id].confidence)
uniqueMatches[id] = match` — a new id is appended, an existing entry is
overwritten in place only on strictly greater confidence. -/
noncomputable def jsUpdate (acc : List MatchRec) (m : MatchRec) : List MatchRec :=
  match acc.find? (hasId m.student.id) with
  | none => acc ++ [m]
  | some x => if m.confidence > x.confidence then jsReplace m acc else acc

/-- The dedup block of `matchFaceWithStudents` (lines 193-203), as
`Object.values` of the insertion-ordered `uniqueMatches` object. -/
noncomputable def dedupMatches (ms : List MatchRec) : List MatchRec :=
  ms.foldl jsUpdate []

/-- The entry of an insertion-ordered object for student id `s`. -/
def entryFor (s : String) (l : List MatchRec) : Option MatchRec :=
  l.find? (hasId s)

/-- `matchFaceWithStudents` (lines 155-204): collect every
above-threshold comparison, then keep the best per student id. -/
noncomputable def matchFaceWithStudents (faceEmbs : List (Option (List ℝ)))
    (students : List Student) : List MatchRec :=
  dedupMatches (collectMatches faceEmbs students)

open Classical in
/-- The replacement policy as a two-argument pick: the incumbent `b`
survives unless the newcomer `m` is strictly more confident. -/
noncomputable def keepBetter (b m : MatchRec) : MatchRec :=
  if m.confidence > b.confidence then m else b

/-- Folding the per-key history of the `uniqueMatches` object: `none`
when the key was never written, otherwise the `keepBetter`-fold of its
candidates. -/
noncomputable def optCombine : Option MatchRec → List MatchRec → Option MatchRec
  | none, [] => none
  | none, m :: rest => some (rest.foldl keepBetter m)
  | some e, rest => some (rest.foldl keepBetter e)

lemma foldl_keepBetter_mem (t : List MatchRec) (b : MatchRec) :
    t.foldl keepBetter b = b ∨ t.foldl keepBetter b ∈ t := by
  induction t generalizing b with
  | nil => exact Or.inl rfl
  | cons x xs ih =>
    rw [List.foldl_cons]
    rcases ih (keepBetter b x) with h | h
    · rw [h]
      unfold keepBetter
      split_ifs
      · exact Or.inr (List.mem_cons_self _ _)
      · exact Or.inl rfl
    · exact Or.inr (List.mem_cons_of_mem _ h)

lemma foldl_keepBetter_le_init (t : List MatchRec) (b : MatchRec) :
    b.confidence ≤ (t.foldl keepBetter b).confidence := by
  induction t generalizing b with
  | nil => exact le_refl _
  | cons x xs ih =>
    rw [List.foldl_cons]
    refine le_trans ?_ (ih (keepBetter b x))
    unfold keepBetter
    split_ifs with hc
    · exact le_of_lt hc
    · exact le_refl _

lemma foldl_keepBetter_le_mem (t : List MatchRec) (b x : MatchRec) (hx : x ∈ t) :
    x.confidence ≤ (t.foldl keepBetter b).confidence := by
  induction t generalizing b with
  | nil => cases hx
  | cons y ys ih =>
    rw [List.foldl_cons]
    rcases List.mem_cons.mp hx with h | h
    · subst h
      refine le_trans ?_ (foldl_keepBetter_le_init ys (keepBetter b x))
      unfold keepBetter
      split_ifs with hc
      · exact le_refl _
      · exact not_lt.mp hc
    · exact ih (keepBetter b y) h

lemma foldl_keepBetter_no_improve (t : List MatchRec) (b : MatchRec)
    (h : ∀ x ∈ t, ¬ (x.confidence > b.confidence)) : t.foldl keepBetter b = b := by
  induction t with
  | nil => rfl
  | cons y ys ih =>
    rw [List.foldl_cons]
    have hy : keepBetter b y = b := by
      unfold keepBetter
      rw [if_neg (h y (List.mem_cons_self y ys))]
    rw [hy]
    exact ih fun x hx => h x (List.mem_cons_of_mem _ hx)

/-- Effect of one `uniqueMatches` update on the entry of key `s`: a
first write stores the match, a later write replaces the entry exactly
when strictly more confident, and keys other than `m.student.id` are
untouched. -/
lemma entryFor_jsUpdate (s : String) (acc : List MatchRec) (m : MatchRec) :
    entryFor s (jsUpdate acc m) =
      if m.student.id = s then
        match entryFor s acc with
        | none => some m
        | some x => some (keepBetter x m)
      else entryFor s acc := by
  by_cases hs : m.student.id = s
  · subst hs
    rw [if_pos rfl]
    unfold jsUpdate entryFor
    rcases hfind : acc.find? (hasId m.student.id) with _ | x
    · simp only [hfind, List.find?_append]
      simp [hasId]
    · simp only [hfind]
      by_cases hc : m.confidence > x.confidence
      · rw [if_pos hc]
        unfold jsReplace
        rw [List.find?_map]
        have hcomp : (hasId m.student.id ∘ fun y : MatchRec =>
            if y.student.id = m.student.id then m else y) = hasId m.student.id := by
          funext y
          by_cases hy : y.student.id = m.student.id
          · simp [Function.comp, hasId, hy]
          · simp [Function.comp, hasId, hy]
        rw [hcomp, hfind]
        have hx : x.student.id = m.student.id := by
          have h1 := List.find?_some hfind
          simpa [hasId] using h1
        simp [keepBetter, hc, hx]
      · rw [if_neg hc]
        simp [keepBetter, hc]
        exact hfind
  · rw [if_neg hs]
    unfold jsUpdate entryFor
    rcases hfind : acc.find? (hasId m.student.id) with _ | x
    · simp only [hfind, List.find?_append]
      have hnone : List.find? (hasId s) [m] = none := by
        simp [hasId, hs]
      rw [hnone]
      simp
    · simp only [hfind]
      by_cases hc : m.confidence > x.confidence
      · rw [if_pos hc]
        unfold jsReplace
        rw [List.find?_map]
        have hcomp : (hasId s ∘ fun y : MatchRec =>
            if y.student.id = m.student.id then m else y) = hasId s := by
          funext y
          by_cases hy : y.student.id = m.student.id
          · simp [Function.comp, hasId, hy, hs]
          · simp [Function.comp, hasId, hy]
        rw [hcomp]
        rcases hfs : acc.find? (hasId s) with _ | z
        · simp
        · have hz : z.student.id = s := by
            have h1 := List.find?_some hfs
            simpa [hasId] using h1
          have hgz : (if z.student.id = m.student.id then m else z) = z := by
            rw [if_neg]
            rw [hz]
            exact fun hcon => hs hcon.symm
          simp [hgz]
      · rw [if_neg hc]

/-- The entry of key `s` after folding updates over `ms` is the
`keepBetter`-combination of the starting entry with the candidates of
key `s` in `ms`, in order. -/
lemma entryFor_foldl (s : String) (ms : List MatchRec) : ∀ acc : List MatchRec,
    entryFor s (List.foldl jsUpdate acc ms) =
      optCombine (entryFor s acc) (ms.filter (hasId s)) := by
  induction ms with
  | nil =>
    intro acc
    rcases h : entryFor s acc with _ | e <;> simp [optCombine, h]
  | cons m t ih =>
    intro acc
    rw [List.foldl_cons, ih (jsUpdate acc m), entryFor_jsUpdate]
    by_cases hs : m.student.id = s
    · rw [if_pos hs]
      have hfil : (m :: t).filter (hasId s) = m :: t.filter (hasId s) := by
        simp [List.filter_cons, hasId, hs]
      rw [hfil]
      rcases h : entryFor s acc with _ | x
      · simp [optCombine]
      · simp [optCombine]
    · rw [if_neg hs]
      have hfil : (m :: t).filter (hasId s) = t.filter (hasId s) := by
        simp [List.filter_cons, hasId, hs]
      rw [hfil]

/-- The per-key content of the dedup output. -/
lemma entryFor_dedup (s : String) (ms : List MatchRec) :
    entryFor s (dedupMatches ms) = optCombine none (ms.filter (hasId s)) := by
  unfold dedupMatches
  rw [entryFor_foldl]
  rfl

/-- The keys of an insertion-ordered object are pairwise distinct. -/
def idsNodup (l : List MatchRec) : Prop :=
  (l.map fun m => m.student.id).Nodup

lemma keepBetter_of_gt (b m : MatchRec) (h : m.confidence > b.confidence) :
    keepBetter b m = m := by
  unfold keepBetter
  rw [if_pos h]

lemma keepBetter_of_not_gt (b m : MatchRec) (h : ¬ m.confidence > b.confidence) :
    keepBetter b m = b := by
  unfold keepBetter
  rw [if_neg h]

lemma idsNodup_jsUpdate (acc : List MatchRec) (m : MatchRec)
    (h : idsNodup acc) : idsNodup (jsUpdate acc m) := by
  rcases hfind : acc.find? (hasId m.student.id) with _ | x
  · simp only [jsUpdate, hfind]
    have hnot : ∀ y ∈ acc, ¬ (y.student.id = m.student.id) := by
      intro y hy
      have h1 := List.find?_eq_none.mp hfind y hy
      simpa [hasId] using h1
    unfold idsNodup at h ⊢
    rw [List.map_append, List.nodup_append]
    refine ⟨h, List.nodup_singleton _, fun a ha hb => ?_⟩
    simp only [List.map_cons, List.map_nil, List.mem_singleton] at hb
    subst hb
    rcases List.mem_map.mp ha with ⟨y, hy, hyid⟩
    exact hnot y hy hyid
  · simp only [jsUpdate, hfind]
    by_cases hc : m.confidence > x.confidence
    · rw [if_pos hc]
      have hids : (jsReplace m acc).map (fun y => y.student.id) =
          acc.map fun y => y.student.id := by
        unfold jsReplace
        rw [List.map_map]
        apply List.map_congr_left
        intro y _
        by_cases hy : y.student.id = m.student.id
        · simp [Function.comp, hy]
        · simp [Function.comp, hy]
      unfold idsNodup at h ⊢
      rw [hids]
      exact h
    · rw [if_neg hc]
      exact h

lemma idsNodup_dedup (ms : List MatchRec) : idsNodup (dedupMatches ms) := by
  unfold dedupMatches
  have h : ∀ acc : List MatchRec, idsNodup acc →
      idsNodup (List.foldl jsUpdate acc ms) := by
    induction ms with
    | nil => intro acc h; exact h
    | cons m t ih =>
      intro acc h
      rw [List.foldl_cons]
      exact ih _ (idsNodup_jsUpdate acc m h)
  exact h [] (by simp [idsNodup])

lemma countMatchesFor_le_one (l : List MatchRec) (h : idsNodup l) (s : String) :
    countMatchesFor s l ≤ 1 := by
  induction l with
  | nil => simp [countMatchesFor]
  | cons m t ih =>
    unfold idsNodup at h
    rw [List.map_cons, List.nodup_cons] at h
    obtain ⟨hnot, ht⟩ := h
    unfold countMatchesFor at ih ⊢
    rw [List.countP_cons]
    by_cases hm : m.student.id = s
    · have hzero : t.countP (fun m => decide (m.student.id = s)) = 0 := by
        rw [List.countP_eq_zero]
        intro y hy
        simp only [decide_eq_true_eq]
        intro hys
        exact hnot (List.mem_map.mpr ⟨y, hy, by rw [hys, hm]⟩)
      simp [hm, hzero]
    · simp only [hm, decide_eq_true_eq, if_neg]
      simpa [hm] using ih ht

lemma mem_jsUpdate (acc : List MatchRec) (m x : MatchRec)
    (hx : x ∈ jsUpdate acc m) : x ∈ acc ∨ x = m := by
  rcases hfind : acc.find? (hasId m.student.id) with _ | z
  · simp only [jsUpdate, hfind] at hx
    rcases List.mem_append.mp hx with h | h
    · exact Or.inl h
    · simp only [List.mem_singleton] at h
      exact Or.inr h
  · simp only [jsUpdate, hfind] at hx
    by_cases hc : m.confidence > z.confidence
    · rw [if_pos hc] at hx
      unfold jsReplace at hx
      rcases List.mem_map.mp hx with ⟨y, hy, hyx⟩
      by_cases hyid : y.student.id = m.student.id
      · rw [if_pos hyid] at hyx
        exact Or.inr hyx.symm
      · rw [if_neg hyid] at hyx
        exact Or.inl (hyx ▸ hy)
    · rw [if_neg hc] at hx
      exact Or.inl hx

lemma mem_dedup (ms : List MatchRec) (x : MatchRec)
    (hx : x ∈ dedupMatches ms) : x ∈ ms := by
  unfold dedupMatches at hx
  have h : ∀ (t acc : List MatchRec), x ∈ List.foldl jsUpdate acc t →
      x ∈ acc ∨ x ∈ t := by
    intro t
    induction t with
    | nil => intro acc h; exact Or.inl h
    | cons m u ih =>
      intro acc h
      rw [List.foldl_cons] at h
      rcases ih (jsUpdate acc m) h with h2 | h2
      · rcases mem_jsUpdate acc m x h2 with h3 | h3
        · exact Or.inl h3
        · exact Or.inr (h3 ▸ List.mem_cons_self m u)
      · exact Or.inr (List.mem_cons_of_mem _ h2)
  rcases h ms [] hx with h2 | h2
  · cases h2
  · exact h2

lemma find?_of_idsNodup (l : List MatchRec) (m : MatchRec) (s : String)
    (h : idsNodup l) (hm : m ∈ l) (hs : m.student.id = s) :
    l.find? (hasId s) = some m := by
  induction l with
  | nil => cases hm
  | cons y t ih =>
    unfold idsNodup at h
    rw [List.map_cons, List.nodup_cons] at h
    obtain ⟨hnot, ht⟩ := h
    rcases List.mem_cons.mp hm with h1 | h1
    · subst h1
      rw [List.find?_cons_of_pos]
      simp [hasId, hs]
    · have hy : ¬ (hasId s y = true) := by
        simp only [hasId, decide_eq_true_eq]
        intro hys
        exact hnot (List.mem_map.mpr ⟨m, h1, by rw [hs, hys]⟩)
      rw [List.find?_cons_of_neg _ hy]
      exact ih ht h1

lemma optCombine_none_first_max (xs ys : List MatchRec) (m1 : MatchRec)
    (hxs : ∀ x ∈ xs, x.confidence < m1.confidence)
    (hys : ∀ y ∈ ys, ¬ (y.confidence > m1.confidence)) :
    optCombine none (xs ++ m1 :: ys) = some m1 := by
  rcases xs with _ | ⟨a, t⟩
  · simp only [List.nil_append, optCombine]
    rw [foldl_keepBetter_no_improve ys m1 hys]
  · simp only [List.cons_append, optCombine]
    rw [List.foldl_append]
    have hrc : m1.confidence > (t.foldl keepBetter a).confidence := by
      rcases foldl_keepBetter_mem t a with h | h
      · rw [h]
        exact hxs a (List.mem_cons_self a t)
      · exact hxs _ (List.mem_cons_of_mem _ h)
    rw [List.foldl_cons, keepBetter_of_gt _ _ hrc,
      foldl_keepBetter_no_improve ys m1 hys]

/-- **C4.** The matcher returns at most one entry per student id, and an
entry for id `s` is one of the retained (strictly-above-0.7) comparisons
for `s` collected over all probe regions, of maximal confidence among
them — every lower-confidence candidate for `s` is discarded. -/
theorem C4_best_match_per_identity (faceEmbs : List (Option (List ℝ)))
    (students : List Student) (s : String) :
    countMatchesFor s (matchFaceWithStudents faceEmbs students) ≤ 1 ∧
      ∀ m ∈ matchFaceWithStudents faceEmbs students, m.student.id = s →
        m ∈ collectMatches faceEmbs students ∧
          ∀ m2 ∈ collectMatches faceEmbs students, m2.student.id = s →
            m2.confidence ≤ m.confidence := by
  constructor
  · exact countMatchesFor_le_one _ (idsNodup_dedup _) s
  · intro m hm hms
    have hentry : entryFor s (matchFaceWithStudents faceEmbs students) = some m :=
      find?_of_idsNodup _ m s (idsNodup_dedup _) hm hms
    unfold matchFaceWithStudents at hentry
    rw [entryFor_dedup] at hentry
    rcases hfil : (collectMatches faceEmbs students).filter (hasId s) with _ | ⟨h0, t0⟩
    · rw [hfil] at hentry
      cases hentry
    · rw [hfil] at hentry
      simp only [optCombine, Option.some.injEq] at hentry
    
      constructor
      · have hor : m = h0 ∨ m ∈ t0 := by
          rw [← hentry]
          exact foldl_keepBetter_mem t0 h0
        have hmem : m ∈ (collectMatches faceEmbs students).filter (hasId s) := by
          rw [hfil]
          rcases hor with h | h
          · rw [h]
            exact List.mem_cons_self _ _
          · exact List.mem_cons_of_mem _ h
        exact List.mem_of_mem_filter hmem
      · intro m2 hm2 hm2s
        have hmem2 : m2 ∈ (collectMatches faceEmbs students).filter (hasId s) :=
          List.mem_filter.mpr ⟨hm2, by simp [hasId, hm2s]⟩
        rw [hfil] at hmem2
        rcases List.mem_cons.mp hmem2 with h | h
        · rw [← hentry, h]
          exact foldl_keepBetter_le_init t0 h0
        · rw [← hentry]
          exact foldl_keepBetter_le_mem t0 h0 m2 h

/-- C4 at a concrete input: one probe whose embedding equals the single
student's stored encoding matches at similarity 1; the matcher output
keeps a single entry and it is the retained comparison of top
confidence. -/
theorem C4_best_match_per_identity_witness :
    countMatchesFor "A" (matchFaceWithStudents [some [1]]
      [⟨"A", "Alice", "S001", some [1]⟩]) ≤ 1 ∧
    (⟨⟨"A", "Alice", "S001", some [1]⟩, 1⟩ : MatchRec) ∈
      collectMatches [some [1]] [⟨"A", "Alice", "S001", some [1]⟩] ∧
    ∀ m2 ∈ collectMatches [some [1]] [⟨"A", "Alice", "S001", some [1]⟩],
      m2.student.id = "A" → m2.confidence ≤ 1 := by
  have hsim : calculateSimilarity [(1 : ℝ)] [(1 : ℝ)] = 1 := by
    unfold calculateSimilarity
    rw [if_neg (by simp)]
    have hss : sumSq [(1 : ℝ)] = 1 := by
      simp [sumSq]
    rw [hss, Real.sqrt_one]
    rw [if_neg (by norm_num)]
    simp [dotProduct]
  have hcol : collectMatches [some [1]] [⟨"A", "Alice", "S001", some [1]⟩] =
      [⟨⟨"A", "Alice", "S001", some [1]⟩, 1⟩] := by
    unfold collectMatches
    rw [List.foldl_cons, List.foldl_nil]
    simp only [List.filterMap_cons, List.filterMap_nil]
    norm_num [hsim]
  have hmat : matchFaceWithStudents [some [1]] [⟨"A", "Alice", "S001", some [1]⟩] =
      [⟨⟨"A", "Alice", "S001", some [1]⟩, 1⟩] := by
    unfold matchFaceWithStudents
    rw [hcol]
    unfold dedupMatches
    rw [List.foldl_cons, List.foldl_nil]
    simp [jsUpdate]
  have hmem : (⟨⟨"A", "Alice", "S001", some [1]⟩, 1⟩ : MatchRec) ∈
      matchFaceWithStudents [some [1]] [⟨"A", "Alice", "S001", some [1]⟩] := by
    rw [hmat]
    exact List.mem_singleton.mpr rfl
  refine ⟨(C4_best_match_per_identity [some [1]]
      [⟨"A", "Alice", "S001", some [1]⟩] "A").1, ?_⟩
  exact (C4_best_match_per_identity [some [1]]
      [⟨"A", "Alice", "S001", some [1]⟩] "A").2 _ hmem rfl

/-- **C9.** Tie-breaking of the per-identity dedup: among the candidates
of key `s`, the replacement test `match.confidence >
uniqueMatches[id].confidence` is strict, so when a later candidate
`m2` ties the earlier maximal candidate `m1`, the entry keeps `m1` and
`m2` is discarded. -/
theorem C9_tie_keeps_earlier (l1 l2 l3 : List MatchRec) (m1 m2 : MatchRec)
    (s : String) (h1 : m1.student.id = s) (h2 : m2.student.id = s)
    (heq : m2.confidence = m1.confidence)
    (hl1 : ∀ x ∈ l1, x.student.id = s → x.confidence < m1.confidence)
    (hl2 : ∀ x ∈ l2, x.student.id = s → ¬ (x.confidence > m1.confidence))
    (hl3 : ∀ x ∈ l3, x.student.id = s → ¬ (x.confidence > m1.confidence)) :
    entryFor s (dedupMatches (l1 ++ m1 :: l2 ++ m2 :: l3)) = some m1 := by
  rw [entryFor_dedup]
  have hfil : (l1 ++ m1 :: l2 ++ m2 :: l3).filter (hasId s) =
      l1.filter (hasId s) ++ m1 ::
        (l2.filter (hasId s) ++ m2 :: l3.filter (hasId s)) := by
    simp [List.filter_append, List.filter_cons, hasId, h1, h2]
  rw [hfil]
  apply optCombine_none_first_max
  · intro x hx
    exact hl1 x (List.mem_of_mem_filter hx)
      (by simpa [hasId] using (List.mem_filter.mp hx).2)
  · intro y hy
    rcases List.mem_append.mp hy with h | h
    · exact hl2 y (List.mem_of_mem_filter h)
        (by simpa [hasId] using (List.mem_filter.mp h).2)
    · rcases List.mem_cons.mp h with h | h
      · rw [h, heq]
        exact lt_irrefl _
      · exact hl3 y (List.mem_of_mem_filter h)
          (by simpa [hasId] using (List.mem_filter.mp h).2)

/-- C9 at a concrete input: two candidates with the same student id and
equal confidence — the dedup entry is the earlier record, not the
later one. -/
theorem C9_tie_keeps_earlier_witness :
    entryFor "A" (dedupMatches
      [⟨⟨"A", "Alice", "S001", none⟩, 0.8⟩,
       ⟨⟨"A", "Alicia", "S002", none⟩, 0.8⟩]) =
      some ⟨⟨"A", "Alice", "S001", none⟩, 0.8⟩ :=
  C9_tie_keeps_earlier [] [] [] ⟨⟨"A", "Alice", "S001", none⟩, 0.8⟩
    ⟨⟨"A", "Alicia", "S002", none⟩, 0.8⟩ "A" rfl rfl rfl
    (fun x hx => absurd hx (List.not_mem_nil x))
    (fun x hx => absurd hx (List.not_mem_nil x))
    (fun x hx => absurd hx (List.not_mem_nil x))

/-- A bounding box of the detector output. -/
structure Box where
  xmin : ℚ
  ymin : ℚ
  xmax : ℚ
  ymax : ℚ
deriving DecidableEq, Repr

/-- One raw record of the object-detection model output:
`{ label, score, box }`. -/
structure RawResult where
  label : String
  score : ℚ
  box : Box
deriving DecidableEq, Repr

/-- A detected face as returned by `detectFaces`: `{ box, score }`. -/
structure DetectedFace where
  box : Box
  score : ℚ
deriving DecidableEq, Repr

/-- The filter-and-project step of `detectFaces` (lines 66-72):
`results.filter(r => r.label === 'person' && r.score > 0.5)
        .map(r => ({ box: r.box, score: r.score }))`. -/
def filterPersons (results : List RawResult) : List DetectedFace :=
  (results.filter fun r => decide (r.label = "person") && decide (r.score > 0.5)).map
    fun r => ⟨r.box, r.score⟩

/-- `initialize` (lines 30-56): a no-op when the service is already
initialized; otherwise the model loads run in a `try` whose `catch`
logs and **rethrows**, so a load failure escapes to the caller. -/
def initializeOutcome (initialized : Bool)
    (loadOutcome : Except String Unit) : Except String Unit :=
  if initialized then Except.ok () else loadOutcome

/-- `detectFaces` (lines 58-80).  The lazy-initialization step
(`if (!this.initialized) await this.initialize()`) sits *outside* the
`try`, so an initialization throw propagates to the caller; the raw
detector call sits *inside* the `try`, and its throw is caught, logged
and turned into an empty list.  `loadOutcome` is the outcome of the
model loads should initialization run; `detectorOutcome` is the raw
model call's outcome. -/
def detectFaces (initialized : Bool) (loadOutcome : Except String Unit)
    (detectorOutcome : Except String (List RawResult)) :
    Except String (List DetectedFace) :=
  match initializeOutcome initialized loadOutcome with
  | Except.error e => Except.error e
  | Except.ok _ =>
    match detectorOutcome with
    | Except.error _ => Except.ok []
    | Except.ok results => Except.ok (filterPersons results)

/-- **C7.** On a successful model call, `detectFaces` returns exactly
the regions labelled `person` with score strictly greater than 0.5 (a
score of exactly 0.5 is excluded, since the comparison is strict), and
an empty list — not an error — when nothing qualifies. -/
theorem C7_detect_filters_persons (lo : Except String Unit)
    (results : List RawResult) :
    detectFaces true lo (Except.ok results) = Except.ok (filterPersons results) ∧
    ∀ f : DetectedFace, f ∈ filterPersons results ↔
      ∃ r ∈ results, r.label = "person" ∧ r.score > 0.5 ∧ f = ⟨r.box, r.score⟩ := by
  refine ⟨rfl, fun f => ?_⟩
  constructor
  · intro hf
    unfold filterPersons at hf
    rcases List.mem_map.mp hf with ⟨r, hr, hfr⟩
    have hp := List.mem_filter.mp hr
    have hc := hp.2
    simp only [Bool.and_eq_true, decide_eq_true_eq] at hc
    exact ⟨r, hp.1, hc.1, hc.2, hfr.symm⟩
  · rintro ⟨r, hr, hlab, hsc, hf⟩
    unfold filterPersons
    exact List.mem_map.mpr
      ⟨r, List.mem_filter.mpr ⟨hr, by simp [hlab, hsc]⟩, hf.symm⟩

/-- **C10.** Error asymmetry of the detector interface: when the service
is uninitialized and the model loads throw, `detectFaces` propagates the
exception; when initialization is fine but the inference call throws,
`detectFaces` returns the empty list, indistinguishable from zero
detections. -/
theorem C10_init_throws_inference_swallowed (e e2 : String)
    (dr : Except String (List RawResult)) :
    detectFaces false (Except.error e) dr = Except.error e ∧
    detectFaces true (Except.error e) (Except.error e2) = Except.ok [] ∧
    detectFaces false (Except.ok ()) (Except.error e2) = Except.ok [] :=
  ⟨rfl, rfl, rfl⟩

/-- One row of the hard-coded schedule table of `updateCurrentClassHour`
(FaceRecognitionMonitor.tsx:438-449), with `start`/`stop` as minutes of
the day: the source compares zero-padded `"HH:MM"` strings
lexicographically, which on such strings coincides with the numeric
order of `60*HH + MM`. -/
structure ScheduleWindow where
  start : Nat
  stop : Nat
  time : String
  isBreak : Bool

/-- The ten configured windows, in source order. -/
def schedules : List ScheduleWindow :=
  [⟨9*60, 10*60, "09:00:00", false⟩,
   ⟨10*60, 10*60+45, "10:00:00", false⟩,
   ⟨10*60+46, 10*60+59, "10:46:00", true⟩,
   ⟨11*60, 12*60, "11:00:00", false⟩,
   ⟨12*60, 12*60+45, "12:00:00", false⟩,
   ⟨12*60+46, 13*60+29, "12:46:00", true⟩,
   ⟨13*60+30, 14*60+30, "13:30:00", false⟩,
   ⟨14*60+30, 15*60+30, "14:30:00", false⟩,
   ⟨15*60+31, 15*60+44, "15:31:00", true⟩,
   ⟨15*60+45, 16*60+20, "15:45:00", false⟩]

/-- `updateCurrentClassHour` (lines 434-462): `schedules.find(s =>
currentTime >= s.start && currentTime <= s.end)` — the first window
containing the current minute, inclusively on both ends; on a miss the
state becomes the falsy hour `""` with `isBreakTime = false`. -/
def updateCurrentClassHour (currentTime : Nat) : String × Bool :=
  match schedules.find?
      (fun w => decide (w.start ≤ currentTime ∧ currentTime ≤ w.stop)) with
  | some w => (w.time, w.isBreak)
  | none => ("", false)

lemma find?_first {α : Type} (p : α → Bool) :
    ∀ (l : List α) (i : Nat) (hi : i < l.length),
      p (l.get ⟨i, hi⟩) = true →
      (∀ j, (hjl : j < l.length) → j < i → p (l.get ⟨j, hjl⟩) = false) →
      l.find? p = some (l.get ⟨i, hi⟩) := by
  intro l
  induction l with
  | nil =>
    intro i hi
    cases hi
  | cons a t ih =>
    intro i hi hp hj
    cases i with
    | zero =>
      exact List.find?_cons_of_pos t hp
    | succ n =>
      have ha : p a = false := hj 0 (by omega) (by omega)
      rw [List.find?_cons_of_neg _ (by simp [ha])]
      exact ih n (Nat.lt_of_succ_lt_succ hi) hp
        fun j hjl hlt => hj (j + 1) (by omega) (by omega)

/-- **C8.** For every minute of the day, `updateCurrentClassHour`
resolves to the first window, in configured order, whose `[start, end]`
range contains the minute inclusively — a time equal to a window's end
is inside that window — and when no window contains it, the class hour
is absent (the empty string) and the break flag is false. -/
theorem C8_schedule_first_inclusive_window (t : Nat) :
    (∀ i : Fin schedules.length,
      (schedules.get i).start ≤ t → t ≤ (schedules.get i).stop →
      (∀ j : Fin schedules.length, (j : Nat) < (i : Nat) →
        ¬ ((schedules.get j).start ≤ t ∧ t ≤ (schedules.get j).stop)) →
      updateCurrentClassHour t =
        ((schedules.get i).time, (schedules.get i).isBreak)) ∧
    ((∀ i : Fin schedules.length,
        ¬ ((schedules.get i).start ≤ t ∧ t ≤ (schedules.get i).stop)) →
      updateCurrentClassHour t = ("", false)) := by
  constructor
  · intro i h1 h2 hj
    unfold updateCurrentClassHour
    rw [find?_first _ schedules i.val i.isLt (by simpa using And.intro h1 h2)
      (fun j hjl hlt => by simpa using hj ⟨j, hjl⟩ hlt)]
  · intro h
    unfold updateCurrentClassHour
    have hn : schedules.find?
        (fun w => decide (w.start ≤ t ∧ t ≤ w.stop)) = none := by
      rw [List.find?_eq_none]
      intro x hx
      rcases List.get_of_mem hx with ⟨n, rfl⟩
      simpa using h n
    rw [hn]

/-- C8 at concrete inputs: 10:00 (minute 600) is the inclusive end of
the first window, so it resolves to the 09:00 class hour and not to the
second window that also starts at 10:00; 16:21 (minute 981) is past
every window, so the hour is absent and the break flag false. -/
theorem C8_schedule_first_inclusive_window_witness :
    updateCurrentClassHour 600 = ("09:00:00", false) ∧
    updateCurrentClassHour 981 = ("", false) := by
  constructor
  · exact (C8_schedule_first_inclusive_window 600).1 ⟨0, by decide⟩
      (by decide) (by decide) (fun j hj => absurd hj (Nat.not_lt_zero _))
  · exact (C8_schedule_first_inclusive_window 981).2 (by decide)
